import Mathlib

/-!
Shallow embedding of the `serde_dokechi` binary serialization library
(src/varuint.rs, src/ser.rs, src/de.rs).

Byte streams are modelled as `List Nat` whose elements are meant to be
bytes (< 256).  The fallible reader (`std::io::Read`) is modelled by
functions that consume a prefix of the list and return the rest, failing
with `DErr.truncated` when the list is exhausted (the `UnexpectedEof`
condition of `read_exact`).  Machine integers are `Nat` with explicit
`% 2 ^ w` / `% 256` where the source extracts bytes or truncates.
-/

deriving instance DecidableEq for Except

namespace SerdeDokechi

/-- Errors of the decoding path, mirroring the distinctions made in
`src/de.rs` (`Error::IncompleteRead`, `Error::Unsupported`, serde's
invalid-value custom errors) and `std::io::ErrorKind` cases used by
`src/varuint.rs` (`UnexpectedEof` from `read_exact`, `InvalidData` in the
unreachable catch-all branch of `decode_u64` / `decode_u128`). -/
inductive DErr where
  | truncated
  | invalidData
  | invalidValue
  | incompleteRead
  | unsupported
  deriving DecidableEq, Repr

/-- Reads exactly `n` bytes from the source, as `Read::read_exact` on an
`n`-byte buffer: returns the bytes and the remaining stream, or the
`UnexpectedEof` error when fewer than `n` bytes are available. -/
def readN : Nat → List Nat → Except DErr (List Nat × List Nat)
  | 0, bs => .ok ([], bs)
  | _ + 1, [] => .error .truncated
  | n + 1, b :: bs =>
    match readN n bs with
    | .ok (l, rest) => .ok (b :: l, rest)
    | .error e => .error e

/-- Big-endian reassembly of a byte buffer, as `u64::from_be_bytes` /
`u128::from_be_bytes`. -/
def fromBe (bs : List Nat) : Nat :=
  bs.foldl (fun acc b => acc * 256 + b) 0

/-- Fuel-based computation of the bit length (fuel bounds the recursion
depth so the recursion is structural and kernel-reducible). -/
def bitLenAux : Nat → Nat → Nat
  | 0, _ => 0
  | fuel + 1, v => if v = 0 then 0 else bitLenAux fuel (v / 2) + 1

/-- Bit length of a value: the Rust sources compute it as
`64 - v.leading_zeros()` (resp. `128 - v.leading_zeros()`), which for a
value of the corresponding width is the number of binary digits. -/
def bitLen (v : Nat) : Nat := bitLenAux v v

theorem bitLenAux_le_iff (fuel v k : Nat) (hf : v ≤ fuel) :
    bitLenAux fuel v ≤ k ↔ v < 2 ^ k := by
  induction fuel generalizing v k with
  | zero =>
    interval_cases v
    simp [bitLenAux, Nat.pos_pow_of_pos]
  | succ fuel ih =>
    by_cases hv : v = 0
    · subst hv; simp [bitLenAux, Nat.pos_pow_of_pos]
    · rw [bitLenAux, if_neg hv]
      cases k with
      | zero =>
        simp only [Nat.pow_zero]
        omega
      | succ j =>
        have hhalf : v / 2 ≤ fuel := by omega
        rw [Nat.add_le_add_iff_right, ih (v / 2) j hhalf, Nat.pow_succ]
        omega

theorem bitLen_le_iff (v k : Nat) : bitLen v ≤ k ↔ v < 2 ^ k :=
  bitLenAux_le_iff v v k (Nat.le_refl v)

/-- Embedding of `varuint::encode_u64` (src/varuint.rs): the byte
sequence written to the sink.  `bs` in the source is `v.to_be_bytes()`,
so `bs[i] = v / 2 ^ (8 * (7 - i)) % 256`; the match is on
`64 - v.leading_zeros()`. -/
def encode_u64 (v : Nat) : List Nat :=
  if bitLen v ≤ 7 then
    [v % 256]
  else if bitLen v ≤ 14 then
    [128 ||| (v / 2 ^ 8 % 256), v % 256]
  else if bitLen v ≤ 21 then
    [192 ||| (v / 2 ^ 16 % 256), v / 2 ^ 8 % 256, v % 256]
  else if bitLen v ≤ 28 then
    [224 ||| (v / 2 ^ 24 % 256), v / 2 ^ 16 % 256, v / 2 ^ 8 % 256, v % 256]
  else if bitLen v ≤ 35 then
    [240 ||| (v / 2 ^ 32 % 256), v / 2 ^ 24 % 256, v / 2 ^ 16 % 256,
      v / 2 ^ 8 % 256, v % 256]
  else if bitLen v ≤ 42 then
    [248 ||| (v / 2 ^ 40 % 256), v / 2 ^ 32 % 256, v / 2 ^ 24 % 256,
      v / 2 ^ 16 % 256, v / 2 ^ 8 % 256, v % 256]
  else if bitLen v ≤ 49 then
    [252 ||| (v / 2 ^ 48 % 256), v / 2 ^ 40 % 256, v / 2 ^ 32 % 256,
      v / 2 ^ 24 % 256, v / 2 ^ 16 % 256, v / 2 ^ 8 % 256, v % 256]
  else if bitLen v ≤ 56 then
    [254, v / 2 ^ 48 % 256, v / 2 ^ 40 % 256, v / 2 ^ 32 % 256,
      v / 2 ^ 24 % 256, v / 2 ^ 16 % 256, v / 2 ^ 8 % 256, v % 256]
  else
    [255, v / 2 ^ 56 % 256, v / 2 ^ 48 % 256, v / 2 ^ 40 % 256,
      v / 2 ^ 32 % 256, v / 2 ^ 24 % 256, v / 2 ^ 16 % 256,
      v / 2 ^ 8 % 256, v % 256]

/-- Embedding of `varuint::decode_u64` (src/varuint.rs).  The source
reads one header byte `h`, zero-initialises an 8-byte buffer `bs`, fills
the positions dictated by the header class (masking the header's value
bits into the buffer), reads the remaining bytes with `read_exact`, and
returns `u64::from_be_bytes(bs)`.  The final catch-all arm returns an
`InvalidData` error. -/
def decode_u64 (input : List Nat) : Except DErr (Nat × List Nat) :=
  match input with
  | [] => .error .truncated
  | h :: r0 =>
    if h ≤ 127 then
      .ok (fromBe [0, 0, 0, 0, 0, 0, 0, 127 &&& h], r0)
    else if h ≤ 191 then
      match readN 1 r0 with
      | .ok (t, r1) => .ok (fromBe ([0, 0, 0, 0, 0, 0, 63 &&& h] ++ t), r1)
      | .error e => .error e
    else if h ≤ 223 then
      match readN 2 r0 with
      | .ok (t, r1) => .ok (fromBe ([0, 0, 0, 0, 0, 31 &&& h] ++ t), r1)
      | .error e => .error e
    else if h ≤ 239 then
      match readN 3 r0 with
      | .ok (t, r1) => .ok (fromBe ([0, 0, 0, 0, 15 &&& h] ++ t), r1)
      | .error e => .error e
    else if h ≤ 247 then
      match readN 4 r0 with
      | .ok (t, r1) => .ok (fromBe ([0, 0, 0, 7 &&& h] ++ t), r1)
      | .error e => .error e
    else if h ≤ 251 then
      match readN 5 r0 with
      | .ok (t, r1) => .ok (fromBe ([0, 0, 3 &&& h] ++ t), r1)
      | .error e => .error e
    else if h ≤ 253 then
      match readN 6 r0 with
      | .ok (t, r1) => .ok (fromBe ([0, 1 &&& h] ++ t), r1)
      | .error e => .error e
    else if h ≤ 254 then
      match readN 7 r0 with
      | .ok (t, r1) => .ok (fromBe ([0] ++ t), r1)
      | .error e => .error e
    else if h = 255 then
      match readN 8 r0 with
      | .ok (t, r1) => .ok (fromBe t, r1)
      | .error e => .error e
    else
      .error .invalidData

/-! Helper facts about the bit masks used by the codec.  Each pairs the
encoder's header construction (`mask ||| topByte` is plain addition when
the top byte fits below the mask) with the decoder's header destruction
(`valueMask &&& header` recovers the top byte). -/

theorem mask_facts0 : ∀ t < 128, 127 &&& t = t := by decide

theorem mask_facts1 : ∀ t < 64, 128 ||| t = 128 + t ∧ 63 &&& (128 + t) = t := by decide

theorem mask_facts2 : ∀ t < 32, 192 ||| t = 192 + t ∧ 31 &&& (192 + t) = t := by decide

theorem mask_facts3 : ∀ t < 16, 224 ||| t = 224 + t ∧ 15 &&& (224 + t) = t := by decide

theorem mask_facts4 : ∀ t < 8, 240 ||| t = 240 + t ∧ 7 &&& (240 + t) = t := by decide

theorem mask_facts5 : ∀ t < 4, 248 ||| t = 248 + t ∧ 3 &&& (248 + t) = t := by decide

theorem mask_facts6 : ∀ t < 2, 252 ||| t = 252 + t ∧ 1 &&& (252 + t) = t := by decide

/-! Control-flow lemmas for `decode_u64`: one per header class, stating
which bytes are consumed and how the 8-byte buffer is filled. -/

theorem decode_u64_c0 (h : Nat) (rest : List Nat) (hh : h ≤ 127) :
    decode_u64 (h :: rest) = .ok (fromBe [0, 0, 0, 0, 0, 0, 0, 127 &&& h], rest) := by
  simp only [decode_u64]
  rw [if_pos hh]

theorem decode_u64_c1 (h b1 : Nat) (rest : List Nat) (hh1 : 128 ≤ h) (hh2 : h ≤ 191) :
    decode_u64 (h :: b1 :: rest) =
      .ok (fromBe [0, 0, 0, 0, 0, 0, 63 &&& h, b1], rest) := by
  simp only [decode_u64]
  split_ifs <;> first | (exfalso; omega) | simp [readN]

theorem decode_u64_c2 (h b1 b2 : Nat) (rest : List Nat) (hh1 : 192 ≤ h) (hh2 : h ≤ 223) :
    decode_u64 (h :: b1 :: b2 :: rest) =
      .ok (fromBe [0, 0, 0, 0, 0, 31 &&& h, b1, b2], rest) := by
  simp only [decode_u64]
  split_ifs <;> first | (exfalso; omega) | simp [readN]

theorem decode_u64_c3 (h b1 b2 b3 : Nat) (rest : List Nat) (hh1 : 224 ≤ h) (hh2 : h ≤ 239) :
    decode_u64 (h :: b1 :: b2 :: b3 :: rest) =
      .ok (fromBe [0, 0, 0, 0, 15 &&& h, b1, b2, b3], rest) := by
  simp only [decode_u64]
  split_ifs <;> first | (exfalso; omega) | simp [readN]

theorem decode_u64_c4 (h b1 b2 b3 b4 : Nat) (rest : List Nat)
    (hh1 : 240 ≤ h) (hh2 : h ≤ 247) :
    decode_u64 (h :: b1 :: b2 :: b3 :: b4 :: rest) =
      .ok (fromBe [0, 0, 0, 7 &&& h, b1, b2, b3, b4], rest) := by
  simp only [decode_u64]
  split_ifs <;> first | (exfalso; omega) | simp [readN]

theorem decode_u64_c5 (h b1 b2 b3 b4 b5 : Nat) (rest : List Nat)
    (hh1 : 248 ≤ h) (hh2 : h ≤ 251) :
    decode_u64 (h :: b1 :: b2 :: b3 :: b4 :: b5 :: rest) =
      .ok (fromBe [0, 0, 3 &&& h, b1, b2, b3, b4, b5], rest) := by
  simp only [decode_u64]
  split_ifs <;> first | (exfalso; omega) | simp [readN]

theorem decode_u64_c6 (h b1 b2 b3 b4 b5 b6 : Nat) (rest : List Nat)
    (hh1 : 252 ≤ h) (hh2 : h ≤ 253) :
    decode_u64 (h :: b1 :: b2 :: b3 :: b4 :: b5 :: b6 :: rest) =
      .ok (fromBe [0, 1 &&& h, b1, b2, b3, b4, b5, b6], rest) := by
  simp only [decode_u64]
  split_ifs <;> first | (exfalso; omega) | simp [readN]

theorem decode_u64_c7 (b1 b2 b3 b4 b5 b6 b7 : Nat) (rest : List Nat) :
    decode_u64 (254 :: b1 :: b2 :: b3 :: b4 :: b5 :: b6 :: b7 :: rest) =
      .ok (fromBe [0, b1, b2, b3, b4, b5, b6, b7], rest) := by
  simp only [decode_u64]
  split_ifs <;> first | (exfalso; omega) | simp [readN]

theorem decode_u64_c8 (b1 b2 b3 b4 b5 b6 b7 b8 : Nat) (rest : List Nat) :
    decode_u64 (255 :: b1 :: b2 :: b3 :: b4 :: b5 :: b6 :: b7 :: b8 :: rest) =
      .ok (fromBe [b1, b2, b3, b4, b5, b6, b7, b8], rest) := by
  simp only [decode_u64]
  split_ifs <;> first | (exfalso; omega) | simp [readN]

example : encode_u64 0 = [0] := by decide
example : encode_u64 127 = [127] := by decide
example : encode_u64 128 = [128, 128] := by decide
example : encode_u64 16383 = [191, 255] := by decide
example : encode_u64 16384 = [192, 64, 0] := by decide
example : encode_u64 72057594037927935 =
    [254, 255, 255, 255, 255, 255, 255, 255] := by decide
example : encode_u64 72057594037927936 =
    [255, 1, 0, 0, 0, 0, 0, 0, 0] := by decide
example : decode_u64 (encode_u64 16384) = .ok (16384, []) := by decide
example : decode_u64 (encode_u64 18446744073709551615) =
    .ok (18446744073709551615, []) := by decide

/-! Unfolding lemmas for `encode_u64`, one per bucket of the length
table. -/

theorem encode_u64_b0 (v : Nat) (h2 : v < 2 ^ 7) : encode_u64 v = [v % 256] := by
  have e0 : bitLen v ≤ 7 := (bitLen_le_iff v 7).mpr h2
  rw [encode_u64, if_pos e0]

theorem encode_u64_b1 (v : Nat) (h1 : 2 ^ 7 ≤ v) (h2 : v < 2 ^ 14) :
    encode_u64 v = [128 ||| (v / 2 ^ 8), v % 256] := by
  have e0 : ¬ bitLen v ≤ 7 := by rw [bitLen_le_iff]; omega
  have e1 : bitLen v ≤ 14 := (bitLen_le_iff v 14).mpr h2
  rw [encode_u64, if_neg e0, if_pos e1,
    Nat.mod_eq_of_lt (show v / 2 ^ 8 < 256 by omega)]

theorem encode_u64_b2 (v : Nat) (h1 : 2 ^ 14 ≤ v) (h2 : v < 2 ^ 21) :
    encode_u64 v = [192 ||| (v / 2 ^ 16), v / 2 ^ 8 % 256, v % 256] := by
  have e0 : ¬ bitLen v ≤ 7 := by rw [bitLen_le_iff]; omega
  have e1 : ¬ bitLen v ≤ 14 := by rw [bitLen_le_iff]; omega
  have e2 : bitLen v ≤ 21 := (bitLen_le_iff v 21).mpr h2
  rw [encode_u64, if_neg e0, if_neg e1, if_pos e2,
    Nat.mod_eq_of_lt (show v / 2 ^ 16 < 256 by omega)]

theorem encode_u64_b3 (v : Nat) (h1 : 2 ^ 21 ≤ v) (h2 : v < 2 ^ 28) :
    encode_u64 v =
      [224 ||| (v / 2 ^ 24), v / 2 ^ 16 % 256, v / 2 ^ 8 % 256, v % 256] := by
  have e0 : ¬ bitLen v ≤ 7 := by rw [bitLen_le_iff]; omega
  have e1 : ¬ bitLen v ≤ 14 := by rw [bitLen_le_iff]; omega
  have e2 : ¬ bitLen v ≤ 21 := by rw [bitLen_le_iff]; omega
  have e3 : bitLen v ≤ 28 := (bitLen_le_iff v 28).mpr h2
  rw [encode_u64, if_neg e0, if_neg e1, if_neg e2, if_pos e3,
    Nat.mod_eq_of_lt (show v / 2 ^ 24 < 256 by omega)]

theorem encode_u64_b4 (v : Nat) (h1 : 2 ^ 28 ≤ v) (h2 : v < 2 ^ 35) :
    encode_u64 v =
      [240 ||| (v / 2 ^ 32), v / 2 ^ 24 % 256, v / 2 ^ 16 % 256, v / 2 ^ 8 % 256,
        v % 256] := by
  have e0 : ¬ bitLen v ≤ 7 := by rw [bitLen_le_iff]; omega
  have e1 : ¬ bitLen v ≤ 14 := by rw [bitLen_le_iff]; omega
  have e2 : ¬ bitLen v ≤ 21 := by rw [bitLen_le_iff]; omega
  have e3 : ¬ bitLen v ≤ 28 := by rw [bitLen_le_iff]; omega
  have e4 : bitLen v ≤ 35 := (bitLen_le_iff v 35).mpr h2
  rw [encode_u64, if_neg e0, if_neg e1, if_neg e2, if_neg e3, if_pos e4,
    Nat.mod_eq_of_lt (show v / 2 ^ 32 < 256 by omega)]

theorem encode_u64_b5 (v : Nat) (h1 : 2 ^ 35 ≤ v) (h2 : v < 2 ^ 42) :
    encode_u64 v =
      [248 ||| (v / 2 ^ 40), v / 2 ^ 32 % 256, v / 2 ^ 24 % 256, v / 2 ^ 16 % 256,
        v / 2 ^ 8 % 256, v % 256] := by
  have e0 : ¬ bitLen v ≤ 7 := by rw [bitLen_le_iff]; omega
  have e1 : ¬ bitLen v ≤ 14 := by rw [bitLen_le_iff]; omega
  have e2 : ¬ bitLen v ≤ 21 := by rw [bitLen_le_iff]; omega
  have e3 : ¬ bitLen v ≤ 28 := by rw [bitLen_le_iff]; omega
  have e4 : ¬ bitLen v ≤ 35 := by rw [bitLen_le_iff]; omega
  have e5 : bitLen v ≤ 42 := (bitLen_le_iff v 42).mpr h2
  rw [encode_u64, if_neg e0, if_neg e1, if_neg e2, if_neg e3, if_neg e4, if_pos e5,
    Nat.mod_eq_of_lt (show v / 2 ^ 40 < 256 by omega)]

theorem encode_u64_b6 (v : Nat) (h1 : 2 ^ 42 ≤ v) (h2 : v < 2 ^ 49) :
    encode_u64 v =
      [252 ||| (v / 2 ^ 48), v / 2 ^ 40 % 256, v / 2 ^ 32 % 256, v / 2 ^ 24 % 256,
        v / 2 ^ 16 % 256, v / 2 ^ 8 % 256, v % 256] := by
  have e0 : ¬ bitLen v ≤ 7 := by rw [bitLen_le_iff]; omega
  have e1 : ¬ bitLen v ≤ 14 := by rw [bitLen_le_iff]; omega
  have e2 : ¬ bitLen v ≤ 21 := by rw [bitLen_le_iff]; omega
  have e3 : ¬ bitLen v ≤ 28 := by rw [bitLen_le_iff]; omega
  have e4 : ¬ bitLen v ≤ 35 := by rw [bitLen_le_iff]; omega
  have e5 : ¬ bitLen v ≤ 42 := by rw [bitLen_le_iff]; omega
  have e6 : bitLen v ≤ 49 := (bitLen_le_iff v 49).mpr h2
  rw [encode_u64, if_neg e0, if_neg e1, if_neg e2, if_neg e3, if_neg e4, if_neg e5,
    if_pos e6, Nat.mod_eq_of_lt (show v / 2 ^ 48 < 256 by omega)]

theorem encode_u64_b7 (v : Nat) (h1 : 2 ^ 49 ≤ v) (h2 : v < 2 ^ 56) :
    encode_u64 v =
      [254, v / 2 ^ 48 % 256, v / 2 ^ 40 % 256, v / 2 ^ 32 % 256, v / 2 ^ 24 % 256,
        v / 2 ^ 16 % 256, v / 2 ^ 8 % 256, v % 256] := by
  have e0 : ¬ bitLen v ≤ 7 := by rw [bitLen_le_iff]; omega
  have e1 : ¬ bitLen v ≤ 14 := by rw [bitLen_le_iff]; omega
  have e2 : ¬ bitLen v ≤ 21 := by rw [bitLen_le_iff]; omega
  have e3 : ¬ bitLen v ≤ 28 := by rw [bitLen_le_iff]; omega
  have e4 : ¬ bitLen v ≤ 35 := by rw [bitLen_le_iff]; omega
  have e5 : ¬ bitLen v ≤ 42 := by rw [bitLen_le_iff]; omega
  have e6 : ¬ bitLen v ≤ 49 := by rw [bitLen_le_iff]; omega
  have e7 : bitLen v ≤ 56 := (bitLen_le_iff v 56).mpr h2
  rw [encode_u64, if_neg e0, if_neg e1, if_neg e2, if_neg e3, if_neg e4, if_neg e5,
    if_neg e6, if_pos e7]

theorem encode_u64_b8 (v : Nat) (h1 : 2 ^ 56 ≤ v) :
    encode_u64 v =
      [255, v / 2 ^ 56 % 256, v / 2 ^ 48 % 256, v / 2 ^ 40 % 256, v / 2 ^ 32 % 256,
        v / 2 ^ 24 % 256, v / 2 ^ 16 % 256, v / 2 ^ 8 % 256, v % 256] := by
  have e0 : ¬ bitLen v ≤ 7 := by rw [bitLen_le_iff]; omega
  have e1 : ¬ bitLen v ≤ 14 := by rw [bitLen_le_iff]; omega
  have e2 : ¬ bitLen v ≤ 21 := by rw [bitLen_le_iff]; omega
  have e3 : ¬ bitLen v ≤ 28 := by rw [bitLen_le_iff]; omega
  have e4 : ¬ bitLen v ≤ 35 := by rw [bitLen_le_iff]; omega
  have e5 : ¬ bitLen v ≤ 42 := by rw [bitLen_le_iff]; omega
  have e6 : ¬ bitLen v ≤ 49 := by rw [bitLen_le_iff]; omega
  have e7 : ¬ bitLen v ≤ 56 := by rw [bitLen_le_iff]; omega
  rw [encode_u64, if_neg e0, if_neg e1, if_neg e2, if_neg e3, if_neg e4, if_neg e5,
    if_neg e6, if_neg e7]

/-! Round-trip of the 64-bit varint codec, bucket by bucket. -/

theorem u64_roundtrip_b0 (v : Nat) (rest : List Nat) (h2 : v < 2 ^ 7) :
    decode_u64 (encode_u64 v ++ rest) = .ok (v, rest) := by
  rw [encode_u64_b0 v h2]
  simp only [List.cons_append, List.nil_append]
  rw [Nat.mod_eq_of_lt (by omega), decode_u64_c0 _ _ (by omega),
    mask_facts0 _ (by omega)]
  have hval : fromBe [0, 0, 0, 0, 0, 0, 0, v] = v := by
    simp only [fromBe, List.foldl]
    omega
  rw [hval]

theorem u64_roundtrip_b1 (v : Nat) (rest : List Nat) (h1 : 2 ^ 7 ≤ v) (h2 : v < 2 ^ 14) :
    decode_u64 (encode_u64 v ++ rest) = .ok (v, rest) := by
  have ht : v / 2 ^ 8 < 64 := by omega
  rw [encode_u64_b1 v h1 h2]
  simp only [List.cons_append, List.nil_append]
  rw [(mask_facts1 _ ht).1, decode_u64_c1 _ _ _ (by omega) (by omega),
    (mask_facts1 _ ht).2]
  have hval : fromBe [0, 0, 0, 0, 0, 0, v / 2 ^ 8, v % 256] = v := by
    simp only [fromBe, List.foldl]
    omega
  rw [hval]

theorem u64_roundtrip_b2 (v : Nat) (rest : List Nat) (h1 : 2 ^ 14 ≤ v) (h2 : v < 2 ^ 21) :
    decode_u64 (encode_u64 v ++ rest) = .ok (v, rest) := by
  have ht : v / 2 ^ 16 < 32 := by omega
  rw [encode_u64_b2 v h1 h2]
  simp only [List.cons_append, List.nil_append]
  rw [(mask_facts2 _ ht).1, decode_u64_c2 _ _ _ _ (by omega) (by omega),
    (mask_facts2 _ ht).2]
  have hval : fromBe [0, 0, 0, 0, 0, v / 2 ^ 16, v / 2 ^ 8 % 256, v % 256] = v := by
    simp only [fromBe, List.foldl]
    omega
  rw [hval]

theorem u64_roundtrip_b3 (v : Nat) (rest : List Nat) (h1 : 2 ^ 21 ≤ v) (h2 : v < 2 ^ 28) :
    decode_u64 (encode_u64 v ++ rest) = .ok (v, rest) := by
  have ht : v / 2 ^ 24 < 16 := by omega
  rw [encode_u64_b3 v h1 h2]
  simp only [List.cons_append, List.nil_append]
  rw [(mask_facts3 _ ht).1, decode_u64_c3 _ _ _ _ _ (by omega) (by omega),
    (mask_facts3 _ ht).2]
  have hval : fromBe [0, 0, 0, 0, v / 2 ^ 24, v / 2 ^ 16 % 256, v / 2 ^ 8 % 256,
      v % 256] = v := by
    simp only [fromBe, List.foldl]
    omega
  rw [hval]

theorem u64_roundtrip_b4 (v : Nat) (rest : List Nat) (h1 : 2 ^ 28 ≤ v) (h2 : v < 2 ^ 35) :
    decode_u64 (encode_u64 v ++ rest) = .ok (v, rest) := by
  have ht : v / 2 ^ 32 < 8 := by omega
  rw [encode_u64_b4 v h1 h2]
  simp only [List.cons_append, List.nil_append]
  rw [(mask_facts4 _ ht).1, decode_u64_c4 _ _ _ _ _ _ (by omega) (by omega),
    (mask_facts4 _ ht).2]
  have hval : fromBe [0, 0, 0, v / 2 ^ 32, v / 2 ^ 24 % 256, v / 2 ^ 16 % 256,
      v / 2 ^ 8 % 256, v % 256] = v := by
    simp only [fromBe, List.foldl]
    omega
  rw [hval]

theorem u64_roundtrip_b5 (v : Nat) (rest : List Nat) (h1 : 2 ^ 35 ≤ v) (h2 : v < 2 ^ 42) :
    decode_u64 (encode_u64 v ++ rest) = .ok (v, rest) := by
  have ht : v / 2 ^ 40 < 4 := by omega
  rw [encode_u64_b5 v h1 h2]
  simp only [List.cons_append, List.nil_append]
  rw [(mask_facts5 _ ht).1, decode_u64_c5 _ _ _ _ _ _ _ (by omega) (by omega),
    (mask_facts5 _ ht).2]
  have hval : fromBe [0, 0, v / 2 ^ 40, v / 2 ^ 32 % 256, v / 2 ^ 24 % 256,
      v / 2 ^ 16 % 256, v / 2 ^ 8 % 256, v % 256] = v := by
    simp only [fromBe, List.foldl]
    omega
  rw [hval]

theorem u64_roundtrip_b6 (v : Nat) (rest : List Nat) (h1 : 2 ^ 42 ≤ v) (h2 : v < 2 ^ 49) :
    decode_u64 (encode_u64 v ++ rest) = .ok (v, rest) := by
  have ht : v / 2 ^ 48 < 2 := by omega
  rw [encode_u64_b6 v h1 h2]
  simp only [List.cons_append, List.nil_append]
  rw [(mask_facts6 _ ht).1, decode_u64_c6 _ _ _ _ _ _ _ _ (by omega) (by omega),
    (mask_facts6 _ ht).2]
  have hval : fromBe [0, v / 2 ^ 48, v / 2 ^ 40 % 256, v / 2 ^ 32 % 256,
      v / 2 ^ 24 % 256, v / 2 ^ 16 % 256, v / 2 ^ 8 % 256, v % 256] = v := by
    simp only [fromBe, List.foldl]
    omega
  rw [hval]

theorem u64_roundtrip_b7 (v : Nat) (rest : List Nat) (h1 : 2 ^ 49 ≤ v) (h2 : v < 2 ^ 56) :
    decode_u64 (encode_u64 v ++ rest) = .ok (v, rest) := by
  rw [encode_u64_b7 v h1 h2]
  simp only [List.cons_append, List.nil_append]
  rw [decode_u64_c7]
  have hval : fromBe [0, v / 2 ^ 48 % 256, v / 2 ^ 40 % 256, v / 2 ^ 32 % 256,
      v / 2 ^ 24 % 256, v / 2 ^ 16 % 256, v / 2 ^ 8 % 256, v % 256] = v := by
    simp only [fromBe, List.foldl]
    omega
  rw [hval]

theorem u64_roundtrip_b8 (v : Nat) (rest : List Nat) (h1 : 2 ^ 56 ≤ v) (h2 : v < 2 ^ 64) :
    decode_u64 (encode_u64 v ++ rest) = .ok (v, rest) := by
  rw [encode_u64_b8 v h1]
  simp only [List.cons_append, List.nil_append]
  rw [decode_u64_c8]
  have hval : fromBe [v / 2 ^ 56 % 256, v / 2 ^ 48 % 256, v / 2 ^ 40 % 256,
      v / 2 ^ 32 % 256, v / 2 ^ 24 % 256, v / 2 ^ 16 % 256, v / 2 ^ 8 % 256,
      v % 256] = v := by
    simp only [fromBe, List.foldl]
    omega
  rw [hval]

/-- Round-trip of the 64-bit varint codec over the whole unsigned range:
decoding the encoded bytes (followed by arbitrary residual input) yields
the original value and leaves the residual input untouched. -/
theorem u64_roundtrip (v : Nat) (rest : List Nat) (h : v < 2 ^ 64) :
    decode_u64 (encode_u64 v ++ rest) = .ok (v, rest) := by
  rcases Nat.lt_or_ge v (2 ^ 7) with h0 | h0
  · exact u64_roundtrip_b0 v rest h0
  rcases Nat.lt_or_ge v (2 ^ 14) with h1 | h1
  · exact u64_roundtrip_b1 v rest h0 h1
  rcases Nat.lt_or_ge v (2 ^ 21) with h2 | h2
  · exact u64_roundtrip_b2 v rest h1 h2
  rcases Nat.lt_or_ge v (2 ^ 28) with h3 | h3
  · exact u64_roundtrip_b3 v rest h2 h3
  rcases Nat.lt_or_ge v (2 ^ 35) with h4 | h4
  · exact u64_roundtrip_b4 v rest h3 h4
  rcases Nat.lt_or_ge v (2 ^ 42) with h5 | h5
  · exact u64_roundtrip_b5 v rest h4 h5
  rcases Nat.lt_or_ge v (2 ^ 49) with h6 | h6
  · exact u64_roundtrip_b6 v rest h5 h6
  rcases Nat.lt_or_ge v (2 ^ 56) with h7 | h7
  · exact u64_roundtrip_b7 v rest h6 h7
  exact u64_roundtrip_b8 v rest h7 h

/-- Embedding of `varuint::encode_u128` (src/varuint.rs): identical
bucket structure to `encode_u64` for bit lengths up to 56 (the source
slices the same trailing bytes out of `v.to_be_bytes()`, a 16-byte
array), and a 17-byte form (header 255 followed by all 16 bytes) for
anything larger. -/
def encode_u128 (v : Nat) : List Nat :=
  if bitLen v ≤ 7 then
    [v % 256]
  else if bitLen v ≤ 14 then
    [128 ||| (v / 2 ^ 8 % 256), v % 256]
  else if bitLen v ≤ 21 then
    [192 ||| (v / 2 ^ 16 % 256), v / 2 ^ 8 % 256, v % 256]
  else if bitLen v ≤ 28 then
    [224 ||| (v / 2 ^ 24 % 256), v / 2 ^ 16 % 256, v / 2 ^ 8 % 256, v % 256]
  else if bitLen v ≤ 35 then
    [240 ||| (v / 2 ^ 32 % 256), v / 2 ^ 24 % 256, v / 2 ^ 16 % 256,
      v / 2 ^ 8 % 256, v % 256]
  else if bitLen v ≤ 42 then
    [248 ||| (v / 2 ^ 40 % 256), v / 2 ^ 32 % 256, v / 2 ^ 24 % 256,
      v / 2 ^ 16 % 256, v / 2 ^ 8 % 256, v % 256]
  else if bitLen v ≤ 49 then
    [252 ||| (v / 2 ^ 48 % 256), v / 2 ^ 40 % 256, v / 2 ^ 32 % 256,
      v / 2 ^ 24 % 256, v / 2 ^ 16 % 256, v / 2 ^ 8 % 256, v % 256]
  else if bitLen v ≤ 56 then
    [254, v / 2 ^ 48 % 256, v / 2 ^ 40 % 256, v / 2 ^ 32 % 256,
      v / 2 ^ 24 % 256, v / 2 ^ 16 % 256, v / 2 ^ 8 % 256, v % 256]
  else
    [255, v / 2 ^ 120 % 256, v / 2 ^ 112 % 256, v / 2 ^ 104 % 256,
      v / 2 ^ 96 % 256, v / 2 ^ 88 % 256, v / 2 ^ 80 % 256, v / 2 ^ 72 % 256,
      v / 2 ^ 64 % 256, v / 2 ^ 56 % 256, v / 2 ^ 48 % 256, v / 2 ^ 40 % 256,
      v / 2 ^ 32 % 256, v / 2 ^ 24 % 256, v / 2 ^ 16 % 256, v / 2 ^ 8 % 256,
      v % 256]

/-- Embedding of `varuint::decode_u128` (src/varuint.rs): identical to
`decode_u64` for every header class up to 254 (the source decodes into
the same 8-byte buffer and widens the resulting `u64`); for header 255
it reads a fresh 16-byte buffer and returns `u128::from_be_bytes`. -/
def decode_u128 (input : List Nat) : Except DErr (Nat × List Nat) :=
  match input with
  | [] => .error .truncated
  | h :: r0 =>
    if h ≤ 127 then
      .ok (fromBe [0, 0, 0, 0, 0, 0, 0, 127 &&& h], r0)
    else if h ≤ 191 then
      match readN 1 r0 with
      | .ok (t, r1) => .ok (fromBe ([0, 0, 0, 0, 0, 0, 63 &&& h] ++ t), r1)
      | .error e => .error e
    else if h ≤ 223 then
      match readN 2 r0 with
      | .ok (t, r1) => .ok (fromBe ([0, 0, 0, 0, 0, 31 &&& h] ++ t), r1)
      | .error e => .error e
    else if h ≤ 239 then
      match readN 3 r0 with
      | .ok (t, r1) => .ok (fromBe ([0, 0, 0, 0, 15 &&& h] ++ t), r1)
      | .error e => .error e
    else if h ≤ 247 then
      match readN 4 r0 with
      | .ok (t, r1) => .ok (fromBe ([0, 0, 0, 7 &&& h] ++ t), r1)
      | .error e => .error e
    else if h ≤ 251 then
      match readN 5 r0 with
      | .ok (t, r1) => .ok (fromBe ([0, 0, 3 &&& h] ++ t), r1)
      | .error e => .error e
    else if h ≤ 253 then
      match readN 6 r0 with
      | .ok (t, r1) => .ok (fromBe ([0, 1 &&& h] ++ t), r1)
      | .error e => .error e
    else if h ≤ 254 then
      match readN 7 r0 with
      | .ok (t, r1) => .ok (fromBe ([0] ++ t), r1)
      | .error e => .error e
    else if h = 255 then
      match readN 16 r0 with
      | .ok (t, r1) => .ok (fromBe t, r1)
      | .error e => .error e
    else
      .error .invalidData

/-- Coincidence of the two encoders below 2^56: the source slices the
same byte ranges out of the big-endian representation. -/
theorem encode_u128_eq_encode_u64 (v : Nat) (h : bitLen v ≤ 56) :
    encode_u128 v = encode_u64 v := by
  simp only [encode_u128, encode_u64]
  split_ifs <;> rfl

/-- Coincidence of the two decoders on every header class except 255. -/
theorem decode_u128_eq_decode_u64 (hd : Nat) (r0 : List Nat) (hh : hd ≤ 254) :
    decode_u128 (hd :: r0) = decode_u64 (hd :: r0) := by
  simp only [decode_u128, decode_u64]
  split_ifs <;> rfl

/-- Every encoding of a value below 2^56 starts with a header byte at
most 254 (only the 17-byte 128-bit form uses header 255). -/
theorem encode_u64_head_le (v : Nat) (hv : v < 2 ^ 56) :
    ∃ hd tl, encode_u64 v = hd :: tl ∧ hd ≤ 254 := by
  rcases Nat.lt_or_ge v (2 ^ 7) with h0 | h0
  · exact ⟨_, _, encode_u64_b0 v h0, by omega⟩
  rcases Nat.lt_or_ge v (2 ^ 14) with h1 | h1
  · refine ⟨_, _, encode_u64_b1 v h0 h1, ?_⟩
    rw [(mask_facts1 (v / 2 ^ 8) (by omega)).1]
    omega
  rcases Nat.lt_or_ge v (2 ^ 21) with h2 | h2
  · refine ⟨_, _, encode_u64_b2 v h1 h2, ?_⟩
    rw [(mask_facts2 (v / 2 ^ 16) (by omega)).1]
    omega
  rcases Nat.lt_or_ge v (2 ^ 28) with h3 | h3
  · refine ⟨_, _, encode_u64_b3 v h2 h3, ?_⟩
    rw [(mask_facts3 (v / 2 ^ 24) (by omega)).1]
    omega
  rcases Nat.lt_or_ge v (2 ^ 35) with h4 | h4
  · refine ⟨_, _, encode_u64_b4 v h3 h4, ?_⟩
    rw [(mask_facts4 (v / 2 ^ 32) (by omega)).1]
    omega
  rcases Nat.lt_or_ge v (2 ^ 42) with h5 | h5
  · refine ⟨_, _, encode_u64_b5 v h4 h5, ?_⟩
    rw [(mask_facts5 (v / 2 ^ 40) (by omega)).1]
    omega
  rcases Nat.lt_or_ge v (2 ^ 49) with h6 | h6
  · refine ⟨_, _, encode_u64_b6 v h5 h6, ?_⟩
    rw [(mask_facts6 (v / 2 ^ 48) (by omega)).1]
    omega
  exact ⟨_, _, encode_u64_b7 v h6 hv, by omega⟩

theorem u128_roundtrip_low (v : Nat) (rest : List Nat) (hv : v < 2 ^ 56) :
    decode_u128 (encode_u128 v ++ rest) = .ok (v, rest) := by
  obtain ⟨hd, tl, he, hb⟩ := encode_u64_head_le v hv
  rw [encode_u128_eq_encode_u64 v ((bitLen_le_iff v 56).mpr hv), he, List.cons_append,
    decode_u128_eq_decode_u64 hd _ hb, ← List.cons_append, ← he]
  exact u64_roundtrip v rest (by omega)

theorem foldl8 (w acc : Nat) (h : w < 2 ^ 64) :
    List.foldl (fun a b => a * 256 + b) acc
      [w / 2 ^ 56 % 256, w / 2 ^ 48 % 256, w / 2 ^ 40 % 256, w / 2 ^ 32 % 256,
        w / 2 ^ 24 % 256, w / 2 ^ 16 % 256, w / 2 ^ 8 % 256, w % 256] =
      acc * 2 ^ 64 + w := by
  simp only [List.foldl]
  omega

/-- Big-endian recomposition of the sixteen bytes of a 128-bit value,
proved by splitting the value into two 64-bit halves. -/
theorem fromBe_sixteen (v : Nat) (h : v < 2 ^ 128) :
    fromBe [v / 2 ^ 120 % 256, v / 2 ^ 112 % 256, v / 2 ^ 104 % 256,
      v / 2 ^ 96 % 256, v / 2 ^ 88 % 256, v / 2 ^ 80 % 256, v / 2 ^ 72 % 256,
      v / 2 ^ 64 % 256, v / 2 ^ 56 % 256, v / 2 ^ 48 % 256, v / 2 ^ 40 % 256,
      v / 2 ^ 32 % 256, v / 2 ^ 24 % 256, v / 2 ^ 16 % 256, v / 2 ^ 8 % 256,
      v % 256] = v := by
  have hhi : v / 2 ^ 64 < 2 ^ 64 := by omega
  have hlo : v % 2 ^ 64 < 2 ^ 64 := by omega
  have e1 : v / 2 ^ 120 % 256 = v / 2 ^ 64 / 2 ^ 56 % 256 := by omega
  have e2 : v / 2 ^ 112 % 256 = v / 2 ^ 64 / 2 ^ 48 % 256 := by omega
  have e3 : v / 2 ^ 104 % 256 = v / 2 ^ 64 / 2 ^ 40 % 256 := by omega
  have e4 : v / 2 ^ 96 % 256 = v / 2 ^ 64 / 2 ^ 32 % 256 := by omega
  have e5 : v / 2 ^ 88 % 256 = v / 2 ^ 64 / 2 ^ 24 % 256 := by omega
  have e6 : v / 2 ^ 80 % 256 = v / 2 ^ 64 / 2 ^ 16 % 256 := by omega
  have e7 : v / 2 ^ 72 % 256 = v / 2 ^ 64 / 2 ^ 8 % 256 := by omega
  have f1 : v / 2 ^ 56 % 256 = v % 2 ^ 64 / 2 ^ 56 % 256 := by omega
  have f2 : v / 2 ^ 48 % 256 = v % 2 ^ 64 / 2 ^ 48 % 256 := by omega
  have f3 : v / 2 ^ 40 % 256 = v % 2 ^ 64 / 2 ^ 40 % 256 := by omega
  have f4 : v / 2 ^ 32 % 256 = v % 2 ^ 64 / 2 ^ 32 % 256 := by omega
  have f5 : v / 2 ^ 24 % 256 = v % 2 ^ 64 / 2 ^ 24 % 256 := by omega
  have f6 : v / 2 ^ 16 % 256 = v % 2 ^ 64 / 2 ^ 16 % 256 := by omega
  have f7 : v / 2 ^ 8 % 256 = v % 2 ^ 64 / 2 ^ 8 % 256 := by omega
  have f8 : v % 256 = v % 2 ^ 64 % 256 := by omega
  rw [fromBe, e1, e2, e3, e4, e5, e6, e7, f1, f2, f3, f4, f5, f6, f7, f8]
  rw [show ([v / 2 ^ 64 / 2 ^ 56 % 256, v / 2 ^ 64 / 2 ^ 48 % 256,
      v / 2 ^ 64 / 2 ^ 40 % 256, v / 2 ^ 64 / 2 ^ 32 % 256, v / 2 ^ 64 / 2 ^ 24 % 256,
      v / 2 ^ 64 / 2 ^ 16 % 256, v / 2 ^ 64 / 2 ^ 8 % 256, v / 2 ^ 64 % 256,
      v % 2 ^ 64 / 2 ^ 56 % 256, v % 2 ^ 64 / 2 ^ 48 % 256, v % 2 ^ 64 / 2 ^ 40 % 256,
      v % 2 ^ 64 / 2 ^ 32 % 256, v % 2 ^ 64 / 2 ^ 24 % 256, v % 2 ^ 64 / 2 ^ 16 % 256,
      v % 2 ^ 64 / 2 ^ 8 % 256, v % 2 ^ 64 % 256] : List Nat) =
      [v / 2 ^ 64 / 2 ^ 56 % 256, v / 2 ^ 64 / 2 ^ 48 % 256, v / 2 ^ 64 / 2 ^ 40 % 256,
        v / 2 ^ 64 / 2 ^ 32 % 256, v / 2 ^ 64 / 2 ^ 24 % 256, v / 2 ^ 64 / 2 ^ 16 % 256,
        v / 2 ^ 64 / 2 ^ 8 % 256, v / 2 ^ 64 % 256] ++
      [v % 2 ^ 64 / 2 ^ 56 % 256, v % 2 ^ 64 / 2 ^ 48 % 256, v % 2 ^ 64 / 2 ^ 40 % 256,
        v % 2 ^ 64 / 2 ^ 32 % 256, v % 2 ^ 64 / 2 ^ 24 % 256, v % 2 ^ 64 / 2 ^ 16 % 256,
        v % 2 ^ 64 / 2 ^ 8 % 256, v % 2 ^ 64 % 256] from rfl]
  rw [List.foldl_append, foldl8 _ _ hhi, foldl8 _ _ hlo]
  omega

theorem decode_u128_c8 (b1 b2 b3 b4 b5 b6 b7 b8 b9 b10 b11 b12 b13 b14 b15 b16 : Nat)
    (rest : List Nat) :
    decode_u128 (255 :: b1 :: b2 :: b3 :: b4 :: b5 :: b6 :: b7 :: b8 :: b9 :: b10 ::
      b11 :: b12 :: b13 :: b14 :: b15 :: b16 :: rest) =
      .ok (fromBe [b1, b2, b3, b4, b5, b6, b7, b8, b9, b10, b11, b12, b13, b14, b15,
        b16], rest) := by
  simp only [decode_u128]
  split_ifs <;> first | (exfalso; omega) | simp [readN]

theorem encode_u128_b8 (v : Nat) (h1 : 2 ^ 56 ≤ v) :
    encode_u128 v =
      [255, v / 2 ^ 120 % 256, v / 2 ^ 112 % 256, v / 2 ^ 104 % 256,
        v / 2 ^ 96 % 256, v / 2 ^ 88 % 256, v / 2 ^ 80 % 256, v / 2 ^ 72 % 256,
        v / 2 ^ 64 % 256, v / 2 ^ 56 % 256, v / 2 ^ 48 % 256, v / 2 ^ 40 % 256,
        v / 2 ^ 32 % 256, v / 2 ^ 24 % 256, v / 2 ^ 16 % 256, v / 2 ^ 8 % 256,
        v % 256] := by
  have e : ∀ k, k ≤ 56 → ¬ bitLen v ≤ k := by
    intro k hk hcon
    rw [bitLen_le_iff] at hcon
    have : (2 : Nat) ^ k ≤ 2 ^ 56 := Nat.pow_le_pow_right (by omega) hk
    omega
  rw [encode_u128, if_neg (e 7 (by omega)), if_neg (e 14 (by omega)),
    if_neg (e 21 (by omega)), if_neg (e 28 (by omega)), if_neg (e 35 (by omega)),
    if_neg (e 42 (by omega)), if_neg (e 49 (by omega)), if_neg (e 56 (by omega))]

theorem u128_roundtrip_high (v : Nat) (rest : List Nat) (h1 : 2 ^ 56 ≤ v)
    (h2 : v < 2 ^ 128) :
    decode_u128 (encode_u128 v ++ rest) = .ok (v, rest) := by
  rw [encode_u128_b8 v h1]
  simp only [List.cons_append, List.nil_append]
  rw [decode_u128_c8, fromBe_sixteen v h2]

/-- Round-trip of the native 128-bit varint codec over the whole range. -/
theorem u128_roundtrip (v : Nat) (rest : List Nat) (h : v < 2 ^ 128) :
    decode_u128 (encode_u128 v ++ rest) = .ok (v, rest) := by
  rcases Nat.lt_or_ge v (2 ^ 56) with hlow | hhigh
  · exact u128_roundtrip_low v rest hlow
  · exact u128_roundtrip_high v rest hhigh h

/-! Embedding of the serializer layer (src/ser.rs).  Successful
serialization of a value is the byte sequence it writes; the pure
byte-stream model is used for claims about output shape, while a
capacity-limited sink model below captures I/O failure behaviour. -/

/-- Embedding of `Serializer::serialize_u128` (src/ser.rs) as the byte
stream it produces on a non-failing sink: the value is split into its
lower and upper 64-bit halves (masking with `0xff..ff` and shifting by
64, as the source does) and each half is varint-encoded independently,
lower half first. -/
def serialize_u128 (v : Nat) : List Nat :=
  encode_u64 (0xffffffffffffffff &&& v) ++ encode_u64 (0xffffffffffffffff &&& (v >>> 64))

/-- Embedding of `Deserializer::parse_u128` (src/de.rs): varint-decode
the lower half, then the upper half, and recombine
`(upper << 64) | lower`. -/
def parse_u128 (bs : List Nat) : Except DErr (Nat × List Nat) :=
  match decode_u64 bs with
  | .ok (lower, r1) =>
    match decode_u64 r1 with
    | .ok (upper, r2) => .ok ((upper <<< 64) ||| lower, r2)
    | .error e => .error e
  | .error e => .error e

/-- Embedding of `Deserializer::parse_u16` (src/de.rs): varint-decode a
64-bit value and range-check it against `u16::max_value()`, failing with
serde's invalid-value error on overflow. -/
def parse_u16 (bs : List Nat) : Except DErr (Nat × List Nat) :=
  match decode_u64 bs with
  | .ok (v, rest) =>
    if v ≤ 65535 then .ok (v, rest) else .error .invalidValue
  | .error e => .error e

/-- Embedding of `Deserializer::parse_u32` (src/de.rs): same shape as
`parse_u16` with the `u32::max_value()` bound. -/
def parse_u32 (bs : List Nat) : Except DErr (Nat × List Nat) :=
  match decode_u64 bs with
  | .ok (v, rest) =>
    if v ≤ 4294967295 then .ok (v, rest) else .error .invalidValue
  | .error e => .error e

/-- Embedding of `Deserializer::deserialize_u8` (src/de.rs): reads one
raw byte. -/
def deserialize_u8 : List Nat → Except DErr (Nat × List Nat)
  | [] => .error .truncated
  | b :: rest => .ok (b, rest)

/-- Embedding of `Deserializer::end` (src/de.rs): attempts to read one
more byte; a successful read is the incomplete-read (trailing data)
error, while the `UnexpectedEof` failure of `read_exact` is success. -/
def end_of_input : List Nat → Except DErr Unit
  | [] => .ok ()
  | _ :: _ => .error .incompleteRead

/-- Embedding of `from_reader` (src/de.rs) instantiated at `u8`: decode
the value, then run the exhaustion check, and return the value only if
both succeed. -/
def from_reader_u8 (bs : List Nat) : Except DErr Nat :=
  match deserialize_u8 bs with
  | .ok (v, rest) =>
    match end_of_input rest with
    | .ok _ => .ok v
    | .error e => .error e
  | .error e => .error e

/-- Embedding of `Serializer::serialize_u8` (src/ser.rs): one raw
little-endian byte. -/
def serialize_u8 (v : Nat) : List Nat := [v % 256]

/-- Embedding of `Serializer::serialize_none` (src/ser.rs): the single
tag byte 0. -/
def serialize_none : List Nat := [0]

/-- Embedding of `Serializer::serialize_some` (src/ser.rs): the tag
byte 1 followed by the inner value's encoding. -/
def serialize_some (inner : List Nat) : List Nat := 1 :: inner

/-- Embedding of `Deserializer::deserialize_option` (src/de.rs): reads
the one-byte tag; 0 is `None`, 1 is `Some` of the inner decode, and any
other tag byte is serde's invalid-value error.  The inner decoder is a
parameter, standing for the `visit_some(self)` continuation. -/
def deserialize_option (inner : List Nat → Except DErr (Nat × List Nat)) :
    List Nat → Except DErr (Option Nat × List Nat)
  | [] => .error .truncated
  | 0 :: rest => .ok (none, rest)
  | 1 :: rest =>
    match inner rest with
    | .ok (v, r) => .ok (some v, r)
    | .error e => .error e
  | (_ + 2) :: _ => .error .invalidValue

/-- Embedding of the `variant_seed` implementation inside
`Deserializer::deserialize_enum` (src/de.rs): the variant index is
varint-decoded as a 64-bit value and cast with `as u32` (truncation
modulo 2^32) before being handed to the variant resolver; the resolved
index is what the consumer observes. -/
def variant_seed (bs : List Nat) : Except DErr (Nat × List Nat) :=
  match decode_u64 bs with
  | .ok (idx, rest) => .ok (idx % 2 ^ 32, rest)
  | .error e => .error e

/-- Embedding of the zigzag branch of `Serializer::serialize_i16`
(src/ser.rs), in `u16` arithmetic: a non-negative `v` maps to
`(v as u16) << 1` and a negative `v` to `((-(v + 1)) as u16) << 1 | 1`;
the resulting unsigned value is serialized as a `u16`, i.e.
varint-encoded. -/
def serialize_i16 (v : Int) : List Nat :=
  let u : Nat :=
    if 0 ≤ v then (v.toNat <<< 1) % 2 ^ 16
    else (((-(v + 1)).toNat <<< 1) ||| 1) % 2 ^ 16
  encode_u64 u

/-- Two's-complement reading of two little-endian bytes, as
`i16::from_le_bytes`. -/
def i16_from_le_bytes (b0 b1 : Nat) : Int :=
  let u := b0 + 256 * b1
  if u < 2 ^ 15 then (u : Int) else (u : Int) - 2 ^ 16

/-- Embedding of `Deserializer::deserialize_i16` (src/de.rs): reads two
raw bytes and interprets them as a little-endian `i16` — with no inverse
zigzag transform. -/
def deserialize_i16 : List Nat → Except DErr (Int × List Nat)
  | b0 :: b1 :: rest => .ok (i16_from_le_bytes b0 b1, rest)
  | _ => .error .truncated

/-- Sink with a fixed remaining byte capacity, modelling a writer whose
underlying I/O starts failing after `cap` bytes. -/
structure Sink where
  cap : Nat
  deriving DecidableEq, Repr

/-- Outcome of a write path: normal success, an I/O error returned as a
value, or a process abort (Rust `panic!`, as caused by `.unwrap()` on an
`Err`). -/
inductive WResult (α : Type) where
  | ok (a : α)
  | ioError
  | panicked
  deriving DecidableEq, Repr

/-- Models `Write::write_all` on the capacity sink: the write succeeds
exactly when the sink still accepts that many bytes. -/
def write_all (s : Sink) (l : List Nat) : WResult Sink :=
  if l.length ≤ s.cap then .ok ⟨s.cap - l.length⟩ else .ioError

/-- Running `varuint::encode_u64` against the fallible sink: the encoder
itself propagates every write error with `?`, so on this sink model it
either writes all its bytes or surfaces the I/O error. -/
def encode_u64_to_sink (s : Sink) (v : Nat) : WResult Sink :=
  write_all s (encode_u64 v)

/-- Embedding of `Serializer::serialize_u64` (src/ser.rs) on the
fallible sink: `encode_u64(&mut self.w, v)?` propagates the I/O error. -/
def serialize_u64_sink (s : Sink) (v : Nat) : WResult Sink :=
  encode_u64_to_sink s v

/-- Embedding of `Serializer::serialize_u128` (src/ser.rs) on the
fallible sink.  The source calls `.unwrap()` on both `encode_u64`
results, so an `Err` from the sink panics (aborts the process) instead
of being returned. -/
def serialize_u128_sink (s : Sink) (v : Nat) : WResult Sink :=
  let lower := 0xffffffffffffffff &&& v
  let upper := 0xffffffffffffffff &&& (v >>> 64)
  match encode_u64_to_sink s lower with
  | .ok s1 =>
    match encode_u64_to_sink s1 upper with
    | .ok s2 => .ok s2
    | _ => .panicked
  | _ => .panicked

/-- Definition following the spec's words for claim C4: the table
"7,14,21,28,35,42,49,56,64 bits, requiring 1,2,3,4,5,6,7,8,9 bytes
respectively", selecting the smallest bucket whose bit capacity is at
least the given bit count. -/
def spec_min_bucket_bytes (nbits : Nat) : Nat :=
  if nbits ≤ 7 then 1
  else if nbits ≤ 14 then 2
  else if nbits ≤ 21 then 3
  else if nbits ≤ 28 then 4
  else if nbits ≤ 35 then 5
  else if nbits ≤ 42 then 6
  else if nbits ≤ 49 then 7
  else if nbits ≤ 56 then 8
  else 9

/-- Classification of `readN`: it either succeeds or fails with the
truncated-input error; no other outcome exists. -/
theorem readN_classify (k : Nat) (bs : List Nat) :
    (∃ l rest, readN k bs = .ok (l, rest)) ∨ readN k bs = .error .truncated := by
  induction k generalizing bs with
  | zero => exact .inl ⟨[], bs, rfl⟩
  | succ n ih =>
    cases bs with
    | nil => exact .inr rfl
    | cons b tl =>
      rcases ih tl with ⟨l, rest, hr⟩ | hr
      · exact .inl ⟨b :: l, rest, by simp [readN, hr]⟩
      · exact .inr (by simp [readN, hr])

/-! Match-form control-flow lemmas for `decode_u64` with an arbitrary
remainder of the stream: used to classify the possible outcomes per
header class without assuming that enough bytes are available. -/

theorem decode_u64_m1 (b : Nat) (bs : List Nat) (h1 : 128 ≤ b) (h2 : b ≤ 191) :
    decode_u64 (b :: bs) =
      match readN 1 bs with
      | .ok (t, r1) => .ok (fromBe ([0, 0, 0, 0, 0, 0, 63 &&& b] ++ t), r1)
      | .error e => .error e := by
  simp only [decode_u64]
  split_ifs <;> first | rfl | (exfalso; omega)

theorem decode_u64_m2 (b : Nat) (bs : List Nat) (h1 : 192 ≤ b) (h2 : b ≤ 223) :
    decode_u64 (b :: bs) =
      match readN 2 bs with
      | .ok (t, r1) => .ok (fromBe ([0, 0, 0, 0, 0, 31 &&& b] ++ t), r1)
      | .error e => .error e := by
  simp only [decode_u64]
  split_ifs <;> first | rfl | (exfalso; omega)

theorem decode_u64_m3 (b : Nat) (bs : List Nat) (h1 : 224 ≤ b) (h2 : b ≤ 239) :
    decode_u64 (b :: bs) =
      match readN 3 bs with
      | .ok (t, r1) => .ok (fromBe ([0, 0, 0, 0, 15 &&& b] ++ t), r1)
      | .error e => .error e := by
  simp only [decode_u64]
  split_ifs <;> first | rfl | (exfalso; omega)

theorem decode_u64_m4 (b : Nat) (bs : List Nat) (h1 : 240 ≤ b) (h2 : b ≤ 247) :
    decode_u64 (b :: bs) =
      match readN 4 bs with
      | .ok (t, r1) => .ok (fromBe ([0, 0, 0, 7 &&& b] ++ t), r1)
      | .error e => .error e := by
  simp only [decode_u64]
  split_ifs <;> first | rfl | (exfalso; omega)

theorem decode_u64_m5 (b : Nat) (bs : List Nat) (h1 : 248 ≤ b) (h2 : b ≤ 251) :
    decode_u64 (b :: bs) =
      match readN 5 bs with
      | .ok (t, r1) => .ok (fromBe ([0, 0, 3 &&& b] ++ t), r1)
      | .error e => .error e := by
  simp only [decode_u64]
  split_ifs <;> first | rfl | (exfalso; omega)

theorem decode_u64_m6 (b : Nat) (bs : List Nat) (h1 : 252 ≤ b) (h2 : b ≤ 253) :
    decode_u64 (b :: bs) =
      match readN 6 bs with
      | .ok (t, r1) => .ok (fromBe ([0, 1 &&& b] ++ t), r1)
      | .error e => .error e := by
  simp only [decode_u64]
  split_ifs <;> first | rfl | (exfalso; omega)

theorem decode_u64_m7 (b : Nat) (bs : List Nat) (h1 : 254 ≤ b) (h2 : b ≤ 254) :
    decode_u64 (b :: bs) =
      match readN 7 bs with
      | .ok (t, r1) => .ok (fromBe ([0] ++ t), r1)
      | .error e => .error e := by
  simp only [decode_u64]
  split_ifs <;> first | rfl | (exfalso; omega)

theorem decode_u64_m8 (bs : List Nat) :
    decode_u64 (255 :: bs) =
      match readN 8 bs with
      | .ok (t, r1) => .ok (fromBe t, r1)
      | .error e => .error e := by
  simp only [decode_u64]
  split_ifs <;> first | rfl | (exfalso; omega)

/-- C1: the claim states that for signed 16/32/64/128-bit values the
deserializer inverts the serializer (zigzag before varint encoding,
inverse zigzag after varint decoding).  The code violates it:
`deserialize_i16` reads two raw little-endian bytes and applies no
inverse zigzag, while `serialize_i16` zigzags and varint-encodes.
Serializing -1 yields the single byte [1], which the two-byte raw read
rejects as truncated; serializing -300 yields [130, 87], which decodes
to 22402 instead of -300. -/
theorem C1_signed_i16_roundtrip_fails :
    deserialize_i16 (serialize_i16 (-1)) = .error .truncated ∧
    deserialize_i16 (serialize_i16 (-300)) = .ok (22402, []) ∧
    serialize_i16 (-1) = [1] ∧
    serialize_i16 (-300) = [130, 87] := by
  refine ⟨by decide, by decide, by decide, by decide⟩

/-- C2: the claim states that an I/O failure of the sink during encoding
is returned to the caller as an ordinary error, in particular for u128.
The code violates it for u128: `serialize_u128` calls `.unwrap()` on
both `encode_u64` results, so a failing sink aborts the process
(panics) instead of returning the error — unlike `serialize_u64`, which
propagates the same failure with `?`. -/
theorem C2_u128_io_error_panics :
    serialize_u128_sink ⟨0⟩ 0 = .panicked ∧
    serialize_u128_sink ⟨0⟩ 0 ≠ .ioError ∧
    serialize_u64_sink ⟨0⟩ 0 = .ioError := by
  refine ⟨by decide, by decide, by decide⟩

/-- C3: for every u64 value, decoding the varint encoding (followed by
arbitrary residual input) yields exactly the original value and leaves
the residual input untouched. -/
theorem C3_decode_encode_u64 (v : Nat) (rest : List Nat) (h : v < 2 ^ 64) :
    decode_u64 (encode_u64 v ++ rest) = .ok (v, rest) :=
  u64_roundtrip v rest h

/-- Witness for C3 at the largest u64 value. -/
theorem C3_decode_encode_u64_witness :
    decode_u64 (encode_u64 18446744073709551615 ++ [9]) =
      .ok (18446744073709551615, [9]) :=
  C3_decode_encode_u64 18446744073709551615 [9] (by decide)

/-- C4: the varint encoding of every value occupies exactly the number
of bytes of the smallest bucket of the 7/14/21/28/35/42/49/56/64-bit
table whose capacity is at least the value's bit length; in particular
at the boundary values listed by the claim. -/
theorem C4_encode_length_minimal_bucket :
    (∀ n : Nat, (encode_u64 n).length = spec_min_bucket_bytes (bitLen n)) ∧
    (encode_u64 0).length = 1 ∧ (encode_u64 127).length = 1 ∧
    (encode_u64 128).length = 2 ∧ (encode_u64 16383).length = 2 ∧
    (encode_u64 16384).length = 3 ∧ (encode_u64 72057594037927935).length = 8 ∧
    (encode_u64 72057594037927936).length = 9 ∧
    (encode_u64 18446744073709551615).length = 9 := by
  refine ⟨fun n => ?_, by decide, by decide, by decide, by decide, by decide,
    by decide, by decide, by decide⟩
  simp only [encode_u64, spec_min_bucket_bytes]
  split_ifs <;> rfl

/-- C5: once the first byte has been read, decoding is total over its
value: every byte below 256 selects a valid length class, so the decode
either succeeds or fails with the truncated-input error, and the
internal invalid-data branch is unreachable. -/
theorem C5_decode_total_after_first_byte (b : Nat) (bs : List Nat) (hb : b < 256) :
    ((∃ v rest, decode_u64 (b :: bs) = .ok (v, rest)) ∨
      decode_u64 (b :: bs) = .error .truncated) ∧
    decode_u64 (b :: bs) ≠ .error .invalidData := by
  have hcl : (∃ v rest, decode_u64 (b :: bs) = .ok (v, rest)) ∨
      decode_u64 (b :: bs) = .error .truncated := by
    by_cases c1 : b ≤ 127
    · rw [decode_u64_c0 b bs c1]
      exact .inl ⟨_, _, rfl⟩
    by_cases c2 : b ≤ 191
    · rw [decode_u64_m1 b bs (by omega) c2]
      rcases readN_classify 1 bs with ⟨l, rest, hr⟩ | hr <;> rw [hr]
      · exact .inl ⟨_, _, rfl⟩
      · exact .inr rfl
    by_cases c3 : b ≤ 223
    · rw [decode_u64_m2 b bs (by omega) c3]
      rcases readN_classify 2 bs with ⟨l, rest, hr⟩ | hr <;> rw [hr]
      · exact .inl ⟨_, _, rfl⟩
      · exact .inr rfl
    by_cases c4 : b ≤ 239
    · rw [decode_u64_m3 b bs (by omega) c4]
      rcases readN_classify 3 bs with ⟨l, rest, hr⟩ | hr <;> rw [hr]
      · exact .inl ⟨_, _, rfl⟩
      · exact .inr rfl
    by_cases c5 : b ≤ 247
    · rw [decode_u64_m4 b bs (by omega) c5]
      rcases readN_classify 4 bs with ⟨l, rest, hr⟩ | hr <;> rw [hr]
      · exact .inl ⟨_, _, rfl⟩
      · exact .inr rfl
    by_cases c6 : b ≤ 251
    · rw [decode_u64_m5 b bs (by omega) c6]
      rcases readN_classify 5 bs with ⟨l, rest, hr⟩ | hr <;> rw [hr]
      · exact .inl ⟨_, _, rfl⟩
      · exact .inr rfl
    by_cases c7 : b ≤ 253
    · rw [decode_u64_m6 b bs (by omega) c7]
      rcases readN_classify 6 bs with ⟨l, rest, hr⟩ | hr <;> rw [hr]
      · exact .inl ⟨_, _, rfl⟩
      · exact .inr rfl
    by_cases c8 : b ≤ 254
    · rw [decode_u64_m7 b bs (by omega) c8]
      rcases readN_classify 7 bs with ⟨l, rest, hr⟩ | hr <;> rw [hr]
      · exact .inl ⟨_, _, rfl⟩
      · exact .inr rfl
    have c9 : b = 255 := by omega
    subst c9
    rw [decode_u64_m8 bs]
    rcases readN_classify 8 bs with ⟨l, rest, hr⟩ | hr <;> rw [hr]
    · exact .inl ⟨_, _, rfl⟩
    · exact .inr rfl
  refine ⟨hcl, ?_⟩
  rcases hcl with ⟨v, rest, hr⟩ | hr <;> rw [hr]
  · exact fun hcon => Except.noConfusion hcon
  · intro hcon
    injection hcon with h2
    exact DErr.noConfusion h2

/-- Witness for C5 at first byte 0 with an empty remainder. -/
theorem C5_decode_total_after_first_byte_witness :
    ((∃ v rest, decode_u64 (0 :: ([] : List Nat)) = .ok (v, rest)) ∨
      decode_u64 (0 :: ([] : List Nat)) = .error .truncated) ∧
    decode_u64 (0 :: ([] : List Nat)) ≠ .error .invalidData :=
  C5_decode_total_after_first_byte 0 [] (by decide)

/-- C6: every u128 value round-trips under both 128-bit schemes: the
serializer's split into two independently varint-encoded 64-bit halves
(lower first), and the native 128-bit varint codec. -/
theorem C6_u128_roundtrip_both_schemes (v : Nat) (rest : List Nat) (h : v < 2 ^ 128) :
    parse_u128 (serialize_u128 v ++ rest) = .ok (v, rest) ∧
    decode_u128 (encode_u128 v ++ rest) = .ok (v, rest) := by
  refine ⟨?_, u128_roundtrip v rest h⟩
  have hmask : ∀ x : Nat, 0xffffffffffffffff &&& x = x % 2 ^ 64 := by
    intro x
    have h64 : (0xffffffffffffffff : Nat) = 2 ^ 64 - 1 := by norm_num
    rw [h64, Nat.and_comm, Nat.and_pow_two_sub_one_eq_mod]
  have hup : v >>> 64 % 2 ^ 64 = v / 2 ^ 64 := by
    rw [Nat.shiftRight_eq_div_pow]
    omega
  simp only [serialize_u128, hmask, hup, List.append_assoc, parse_u128,
    u64_roundtrip (v % 2 ^ 64) _ (by omega), u64_roundtrip (v / 2 ^ 64) rest (by omega)]
  have hcomb : (v / 2 ^ 64) <<< 64 ||| v % 2 ^ 64 = v := by
    rw [Nat.shiftLeft_eq, Nat.mul_comm,
      ← Nat.mul_add_lt_is_or (show v % 2 ^ 64 < 2 ^ 64 by omega) (v / 2 ^ 64)]
    omega
  rw [hcomb]

/-- Witness for C6 at a value above 2^64. -/
theorem C6_u128_roundtrip_both_schemes_witness :
    parse_u128 (serialize_u128 (2 ^ 64 + 3) ++ [1]) = .ok (2 ^ 64 + 3, [1]) ∧
    decode_u128 (encode_u128 (2 ^ 64 + 3) ++ [1]) = .ok (2 ^ 64 + 3, [1]) :=
  C6_u128_roundtrip_both_schemes (2 ^ 64 + 3) [1] (by norm_num)

/-- C7: decoding a u16 or u32 varint-decodes a 64-bit value and
range-checks it: values within the target width succeed unchanged (no
truncation) and larger values fail with the invalid-value error. -/
theorem C7_parse_u16_u32_range_check (bs : List Nat) (v : Nat) (rest : List Nat)
    (h : decode_u64 bs = .ok (v, rest)) :
    (v ≤ 65535 → parse_u16 bs = .ok (v, rest)) ∧
    (65535 < v → parse_u16 bs = .error .invalidValue) ∧
    (v ≤ 4294967295 → parse_u32 bs = .ok (v, rest)) ∧
    (4294967295 < v → parse_u32 bs = .error .invalidValue) := by
  refine ⟨fun hv => ?_, fun hv => ?_, fun hv => ?_, fun hv => ?_⟩
  · simp only [parse_u16, h]
    rw [if_pos hv]
  · simp only [parse_u16, h]
    rw [if_neg (by omega)]
  · simp only [parse_u32, h]
    rw [if_pos hv]
  · simp only [parse_u32, h]
    rw [if_neg (by omega)]

/-- Witness for C7: the value 70000 decodes, overflows u16 and fits
u32. -/
theorem C7_parse_u16_u32_range_check_witness :
    parse_u16 (encode_u64 70000) = .error .invalidValue ∧
    parse_u32 (encode_u64 70000) = .ok (70000, []) := by
  have h := C7_parse_u16_u32_range_check (encode_u64 70000) 70000 [] (by decide)
  exact ⟨h.2.1 (by decide), h.2.2.1 (by decide)⟩

/-- C8: the exhaustion check of the decode entry point fails with the
incomplete-read (trailing data) error exactly when at least one more
byte can be read, and succeeds exactly on a clean end of input; in
particular decoding a u8 from a 2-byte input fails the check even though
the u8 itself decodes successfully. -/
theorem C8_trailing_data_detected :
    (∀ b bs, end_of_input (b :: bs) = .error .incompleteRead) ∧
    (∀ bs, end_of_input bs = .ok () ↔ bs = []) ∧
    deserialize_u8 [5, 99] = .ok (5, [99]) ∧
    from_reader_u8 [5, 99] = .error .incompleteRead ∧
    from_reader_u8 [5] = .ok 5 := by
  refine ⟨fun b bs => rfl, fun bs => ?_, rfl, rfl, rfl⟩
  cases bs <;> simp [end_of_input]

/-- C9: option encoding uses a one-byte tag: `None` is exactly [0],
`Some(123u8)` is exactly [1, 123]; on decode, tag 0 yields absence,
tag 1 yields the inner decode's value, and every other tag byte is the
invalid-value error. -/
theorem C9_option_tag_encoding :
    serialize_none = [0] ∧
    serialize_some (serialize_u8 123) = [1, 123] ∧
    (∀ inner rest, deserialize_option inner (0 :: rest) = .ok (none, rest)) ∧
    (∀ inner rest v r, inner rest = .ok (v, r) →
      deserialize_option inner (1 :: rest) = .ok (some v, r)) ∧
    (∀ inner t rest, deserialize_option inner ((t + 2) :: rest) = .error .invalidValue) := by
  refine ⟨rfl, rfl, fun inner rest => rfl, fun inner rest v r h => ?_,
    fun inner t rest => rfl⟩
  simp [deserialize_option, h]

/-- Witness for C9: decoding the bytes of `Some(123u8)` with the u8
inner decoder. -/
theorem C9_option_tag_encoding_witness :
    deserialize_option deserialize_u8 [1, 123] = .ok (some 123, []) :=
  C9_option_tag_encoding.2.2.2.1 deserialize_u8 [123] 123 [] rfl

/-- C10: the enum variant index is decoded as a full 64-bit varint and
truncated with `as u32` before reaching the variant resolver, so the
resolver receives the index modulo 2^32 and any two on-wire indices
congruent modulo 2^32 are indistinguishable. -/
theorem C10_variant_index_truncated_mod32 (i j : Nat) (rest : List Nat)
    (hi : i < 2 ^ 64) (hj : j < 2 ^ 64) :
    variant_seed (encode_u64 i ++ rest) = .ok (i % 2 ^ 32, rest) ∧
    (i % 2 ^ 32 = j % 2 ^ 32 →
      variant_seed (encode_u64 i ++ rest) = variant_seed (encode_u64 j ++ rest)) := by
  constructor
  · simp only [variant_seed, u64_roundtrip i rest hi]
  · intro hcong
    simp only [variant_seed, u64_roundtrip i rest hi, u64_roundtrip j rest hj, hcong]

/-- Witness for C10: the on-wire index 2^32 + 5 reaches the resolver
as 5, indistinguishable from the index 5 itself. -/
theorem C10_variant_index_truncated_mod32_witness :
    variant_seed (encode_u64 4294967301 ++ []) = .ok (4294967301 % 2 ^ 32, []) ∧
    4294967301 % 2 ^ 32 = 5 ∧
    variant_seed (encode_u64 4294967301 ++ []) = variant_seed (encode_u64 5 ++ []) := by
  have h := C10_variant_index_truncated_mod32 4294967301 5 [] (by decide) (by decide)
  exact ⟨h.1, by decide, h.2 (by decide)⟩

end SerdeDokechi
